import Mathlib

/-!
Verification of the airmonitoring temporal assignment and interval-aggregation
engine, shallowly embedded from the Django source.

Conventions of the embedding:
* timestamps (`DateTimeField`) are integers (minutes since an arbitrary epoch);
  a nullable timestamp is `Option ℤ`;
* reading values (`FloatField`) are rationals, so that averages are exact;
* database rows are Lean structures, querysets are Lean lists, `.filter` is
  `List.filter`, `.update` is a `List.map`, and an aggregate is a fold;
* raising a validation error is returning `some err` from a pure check.
-/

namespace AirMonitoring

/-- A `Location` row as referenced from schedules/readings: surrogate id plus
the label used as a grouping key by the report table. -/
structure LocRef where
  id : ℕ
  label : String
deriving DecidableEq

/-- A `Sensor` row: one gas channel on a detector (`models.Sensor`). -/
structure Sensor where
  id : ℕ
  detectorId : ℕ
  gas_code : String
deriving DecidableEq

/-- A `LocationSchedule` row (`models.LocationSchedule`): a detector is at a
location during `[start_dt, stop_dt)`, `stop_dt = none` meaning "still there".
`pk` is `none` for a candidate row not yet saved. -/
structure LocationSchedule where
  pk : Option ℕ
  locationId : ℕ
  detectorId : ℕ
  start_dt : ℤ
  stop_dt : Option ℤ
deriving DecidableEq

/-- A `SensorReading` row (`models.SensorReading`): the sensor is embedded
(it is reachable through the foreign key), `location`/`validation` are the
two derived nullable back-references. -/
structure Reading where
  sensor : Sensor
  log_time : ℤ
  reading : ℚ
  location : Option LocRef
  validation : Option ℕ
deriving DecidableEq

/-- `LocationSchedule.overlaps_with` (models.py lines 144-162), translated
branch by branch: both open-ended → true; only `self` open-ended →
`self.start_dt < other.stop_dt`; only `other` open-ended →
`other.start_dt < self.stop_dt`; both bounded → both strict comparisons. -/
def overlaps_with (self other : LocationSchedule) : Bool :=
  match self.stop_dt, other.stop_dt with
  | none, none => true
  | none, some ostop => decide (self.start_dt < ostop)
  | some sstop, none => decide (other.start_dt < sstop)
  | some sstop, some ostop =>
      decide (self.start_dt < ostop) && decide (other.start_dt < sstop)

/-- The spec's description of the overlap predicate (§4.1), written from the
spec's words to be compared with `overlaps_with`. -/
def overlapsSpec (A B : LocationSchedule) : Prop :=
  match A.stop_dt, B.stop_dt with
  | none, none => True
  | none, some bstop => A.start_dt < bstop
  | some astop, none => B.start_dt < astop
  | some astop, some bstop => A.start_dt < bstop ∧ B.start_dt < astop

/-- C2: the overlap predicate on half-open `[start, stop?)` intervals agrees
with the spec's case analysis (both open → true; one open → open.start <
bounded.stop; both bounded → strict two-sided comparison, so touching
endpoints do not overlap), and it is symmetric.  The final conjunct records
the touching-endpoint case `A.stop = B.start` concretely. -/
theorem overlaps_with_spec_and_symm :
    (∀ A B : LocationSchedule,
        (overlaps_with A B = true ↔ overlapsSpec A B) ∧
        overlaps_with A B = overlaps_with B A) ∧
    overlaps_with ⟨some 1, 1, 1, 0, some 10⟩ ⟨some 2, 2, 2, 10, some 20⟩ = false := by
  refine ⟨fun A B => ?_, by decide⟩
  obtain ⟨pa, la, da, sa, ta⟩ := A
  obtain ⟨pb, lb, db, sb, tb⟩ := B
  cases ta <;> cases tb <;>
    simp [overlaps_with, overlapsSpec, Bool.and_comm, and_comm]

/-- A schedule conflict, carrying the offending existing schedule (the
validation error message quotes that schedule's detector/location and
interval).  `sameLocation = true` is the "location already hosts a detector"
branch, `false` the "detector already placed elsewhere" branch. -/
structure ConflictError where
  schedule : LocationSchedule
  sameLocation : Bool
deriving DecidableEq

/-- `LocationSchedule.clean` (models.py lines 115-142): scan the schedules
sharing the candidate's location (excluding its own pk), raising on the first
overlap; then the schedules sharing its detector, likewise.  Returns
`some err` for "raise ValidationError", `none` for acceptance; it inspects,
never modifies, the existing rows. -/
def overlappingSchedules (self : LocationSchedule)
    (allSchedules : List LocationSchedule) : List LocationSchedule :=
  allSchedules.filter fun s =>
    decide (s.locationId = self.locationId ∧ s.pk ≠ self.pk)

def detectorOverlappingSchedules (self : LocationSchedule)
    (allSchedules : List LocationSchedule) : List LocationSchedule :=
  allSchedules.filter fun s =>
    decide (s.detectorId = self.detectorId ∧ s.pk ≠ self.pk)

def clean (self : LocationSchedule) (allSchedules : List LocationSchedule) :
    Option ConflictError :=
  match (overlappingSchedules self allSchedules).find?
      (fun s => overlaps_with self s) with
  | some s => some ⟨s, true⟩
  | none =>
    match (detectorOverlappingSchedules self allSchedules).find?
        (fun s => overlaps_with self s) with
    | some s => some ⟨s, false⟩
    | none => none

/-- C3: `clean` accepts iff no other schedule (own pk excluded) that shares the
candidate's location or its detector overlaps it; when it rejects, the error
names an existing schedule that does conflict.  Being a pure function of the
existing rows, it modifies none of them. -/
theorem clean_conflict_iff (self : LocationSchedule)
    (allSchedules : List LocationSchedule) :
    (clean self allSchedules = none ↔
      ∀ s ∈ allSchedules, s.pk ≠ self.pk →
        (s.locationId = self.locationId ∨ s.detectorId = self.detectorId) →
        overlaps_with self s = false) ∧
    (∀ e, clean self allSchedules = some e →
      e.schedule ∈ allSchedules ∧ e.schedule.pk ≠ self.pk ∧
      (e.schedule.locationId = self.locationId ∨
        e.schedule.detectorId = self.detectorId) ∧
      overlaps_with self e.schedule = true) := by
  have memLoc : ∀ s, s ∈ overlappingSchedules self allSchedules ↔
      s ∈ allSchedules ∧ s.locationId = self.locationId ∧ s.pk ≠ self.pk := by
    intro s
    simp [overlappingSchedules, List.mem_filter]
  have memDet : ∀ s, s ∈ detectorOverlappingSchedules self allSchedules ↔
      s ∈ allSchedules ∧ s.detectorId = self.detectorId ∧ s.pk ≠ self.pk := by
    intro s
    simp [detectorOverlappingSchedules, List.mem_filter]
  cases hfind1 : (overlappingSchedules self allSchedules).find?
      (fun s => overlaps_with self s) with
  | some w =>
    have hw := List.find?_some hfind1
    have hwm := (memLoc w).mp (List.mem_of_find?_eq_some hfind1)
    have hcl : clean self allSchedules = some ⟨w, true⟩ := by
      simp only [clean, hfind1]
    refine ⟨⟨fun h => absurd (hcl.symm.trans h) (by simp), fun h => ?_⟩,
      fun e he => ?_⟩
    · exact absurd (h w hwm.1 hwm.2.2 (Or.inl hwm.2.1)) (by simp [hw])
    · cases Option.some.inj (hcl.symm.trans he)
      exact ⟨hwm.1, hwm.2.2, Or.inl hwm.2.1, hw⟩
  | none =>
    cases hfind2 : (detectorOverlappingSchedules self allSchedules).find?
        (fun s => overlaps_with self s) with
    | some w =>
      have hw := List.find?_some hfind2
      have hwm := (memDet w).mp (List.mem_of_find?_eq_some hfind2)
      have hcl : clean self allSchedules = some ⟨w, false⟩ := by
        simp only [clean, hfind1, hfind2]
      refine ⟨⟨fun h => absurd (hcl.symm.trans h) (by simp), fun h => ?_⟩,
        fun e he => ?_⟩
      · exact absurd (h w hwm.1 hwm.2.2 (Or.inr hwm.2.1)) (by simp [hw])
      · cases Option.some.inj (hcl.symm.trans he)
        exact ⟨hwm.1, hwm.2.2, Or.inr hwm.2.1, hw⟩
    | none =>
      have hcl : clean self allSchedules = none := by
        simp only [clean, hfind1, hfind2]
      refine ⟨⟨fun _ s hs hpk hshare => ?_, fun _ => hcl⟩,
        fun e he => absurd (hcl.symm.trans he) (by simp)⟩
      rcases hshare with hloc | hdet
      · have := List.find?_eq_none.mp hfind1 s ((memLoc s).mpr ⟨hs, hloc, hpk⟩)
        simpa using this
      · have := List.find?_eq_none.mp hfind2 s ((memDet s).mpr ⟨hs, hdet, hpk⟩)
        simpa using this

/-- Witness for `clean_conflict_iff`: a candidate overlapping an existing
schedule at the same location is rejected naming that schedule; shrinking the
candidate to end before the existing one starts makes it accepted. -/
theorem clean_conflict_iff_witness :
    clean ⟨none, 1, 2, 660, some 780⟩ [⟨some 1, 1, 1, 600, some 720⟩] =
      some ⟨⟨some 1, 1, 1, 600, some 720⟩, true⟩ ∧
    (⟨some 1, 1, 1, 600, some 720⟩ : LocationSchedule) ∈
      [(⟨some 1, 1, 1, 600, some 720⟩ : LocationSchedule)] ∧
    clean ⟨none, 1, 2, 500, some 550⟩ [⟨some 1, 1, 1, 600, some 720⟩] = none := by
  refine ⟨by decide, ?_, ?_⟩
  · exact ((clean_conflict_iff ⟨none, 1, 2, 660, some 780⟩
      [⟨some 1, 1, 1, 600, some 720⟩]).2 ⟨⟨some 1, 1, 1, 600, some 720⟩, true⟩
      (by decide)).1
  · exact (clean_conflict_iff ⟨none, 1, 2, 500, some 550⟩
      [⟨some 1, 1, 1, 600, some 720⟩]).1.mpr (by decide)

/-- Outcome of `LocationScheduleSerializer.validate`: the date-order error or
one of the two overlap errors, each naming the offending schedule. -/
inductive ValidateError where
  | dateOrder
  | locationConflict (schedule : LocationSchedule)
  | detectorConflict (schedule : LocationSchedule)
deriving DecidableEq

/-- `LocationScheduleSerializer.validate` (serializers.py lines 55-116) for a
candidate whose required fields are present: raise the date-order error when
`start_dt > stop_dt` (the code's test is strict, with both dates present);
then run the same two overlap scans as `clean`, the candidate's own pk (from
`self.instance`, `none` on create) excluded from comparison. -/
def serializerValidate (candidate : LocationSchedule)
    (allSchedules : List LocationSchedule) : Option ValidateError :=
  if (match candidate.stop_dt with
      | some t => decide (candidate.start_dt > t)
      | none => false) then
    some .dateOrder
  else
    match (overlappingSchedules candidate allSchedules).find?
        (fun s => overlaps_with candidate s) with
    | some s => some (.locationConflict s)
    | none =>
      match (detectorOverlappingSchedules candidate allSchedules).find?
          (fun s => overlaps_with candidate s) with
      | some s => some (.detectorConflict s)
      | none => none

/-- C8 (code behaviour at the failing input): the serializer's date check is
strict (`start_dt > stop_dt`), so a candidate with `start_dt = stop_dt` is
accepted — no error at all with no other schedule present — while the
immediately-following strict case `start_dt > stop_dt` is rejected with the
date-order error.  The spec requires rejection of `start >= stop`, equality
included. -/
theorem serializerValidate_equal_dates_accepted :
    serializerValidate ⟨none, 1, 1, 600, some 600⟩ [] = none ∧
    serializerValidate ⟨none, 1, 1, 601, some 600⟩ [] = some .dateOrder := by
  decide

/-- `scheduleMatches s r`: the containment test of the location backfill pass
(models.py lines 216-232) — the reading's sensor belongs to the schedule's
detector, `log_time >= start_dt`, and when `stop_dt` is set,
`log_time <= stop_dt` (inclusive at both ends). -/
def scheduleMatches (s : LocationSchedule) (r : Reading) : Bool :=
  decide (r.sensor.detectorId = s.detectorId) &&
  decide (s.start_dt ≤ r.log_time) &&
  (match s.stop_dt with
   | none => true
   | some t => decide (r.log_time ≤ t))

/-- `updateSensorReadingLocations` (models.py lines 210-233): clear `location`
on every reading, then for each schedule in turn set
`location = schedule.location` on every reading it matches (the source
iterates the detector's sensors and filters readings per sensor; per reading
this is exactly the detector-membership test of `scheduleMatches`). -/
def updateSensorReadingLocations (schedules : List LocationSchedule)
    (locationOf : ℕ → LocRef) (readings : List Reading) : List Reading :=
  let cleared := readings.map fun r => { r with location := none }
  schedules.foldl
    (fun rs s => rs.map fun r =>
      if scheduleMatches s r then { r with location := some (locationOf s.locationId) }
      else r)
    cleared

/-- The containment test only reads a reading's sensor and timestamp, which
the backfill pass never modifies. -/
theorem scheduleMatches_congr (s : LocationSchedule) (r r' : Reading)
    (hsen : r'.sensor = r.sensor) (hlog : r'.log_time = r.log_time) :
    scheduleMatches s r' = scheduleMatches s r := by
  simp only [scheduleMatches, hsen, hlog]

/-- Invariant lemma for the backfill fold: starting from any state whose
readings are either unassigned or assigned by some already-processed matching
schedule, the fold preserves it. -/
theorem backfill_fold_invariant (locationOf : ℕ → LocRef)
    (schedules : List LocationSchedule) :
    ∀ (rs : List Reading),
      ∀ r' ∈ schedules.foldl
          (fun rs s => rs.map fun r =>
            if scheduleMatches s r then
              { r with location := some (locationOf s.locationId) }
            else r)
          rs,
        ∃ r ∈ rs,
          r'.sensor = r.sensor ∧ r'.log_time = r.log_time ∧
          r'.reading = r.reading ∧ r'.validation = r.validation ∧
          (r'.location = r.location ∧
              (∀ s ∈ schedules, scheduleMatches s r = false) ∨
            ∃ s ∈ schedules, scheduleMatches s r = true ∧
              r'.location = some (locationOf s.locationId)) := by
  induction schedules with
  | nil =>
    intro rs r' hr'
    exact ⟨r', hr', rfl, rfl, rfl, rfl, Or.inl ⟨rfl, by simp⟩⟩
  | cons s ss ih =>
    intro rs r' hr'
    simp only [List.foldl_cons] at hr'
    obtain ⟨r1, hr1, hsen, hlog, hread, hval, hloc⟩ := ih _ r' hr'
    obtain ⟨r0, hr0, hr1eq⟩ := List.mem_map.mp hr1
    by_cases hm : scheduleMatches s r0
    · rw [if_pos hm] at hr1eq
      have hsen0 : r'.sensor = r0.sensor := by rw [hsen, ← hr1eq]
      have hlog0 : r'.log_time = r0.log_time := by rw [hlog, ← hr1eq]
      have hread0 : r'.reading = r0.reading := by rw [hread, ← hr1eq]
      have hval0 : r'.validation = r0.validation := by rw [hval, ← hr1eq]
      have hmc : ∀ t, scheduleMatches t r1 = scheduleMatches t r0 := fun t =>
        scheduleMatches_congr t r0 r1 (by rw [← hr1eq]) (by rw [← hr1eq])
      rcases hloc with ⟨hleq, hnone⟩ | ⟨s', hs', hms', hleq⟩
      · refine ⟨r0, hr0, hsen0, hlog0, hread0, hval0,
          Or.inr ⟨s, List.mem_cons_self s ss, hm, ?_⟩⟩
        rw [hleq, ← hr1eq]
      · exact ⟨r0, hr0, hsen0, hlog0, hread0, hval0,
          Or.inr ⟨s', List.mem_cons_of_mem _ hs', (hmc s').symm.trans hms', hleq⟩⟩
    · rw [Bool.not_eq_true] at hm
      rw [hm] at hr1eq
      simp only [Bool.false_eq_true, if_false] at hr1eq
      subst hr1eq
      rcases hloc with ⟨hleq, hnone⟩ | ⟨s', hs', hms', hleq⟩
      · exact ⟨r0, hr0, hsen, hlog, hread, hval,
          Or.inl ⟨hleq, fun t ht => by
            rcases List.mem_cons.mp ht with rfl | ht'
            · exact hm
            · exact hnone t ht'⟩⟩
      · exact ⟨r0, hr0, hsen, hlog, hread, hval,
          Or.inr ⟨s', List.mem_cons_of_mem _ hs', hms', hleq⟩⟩

/-- `int(request.query_params.get('interval', 60))` (views.py line 379): the
default 60 applies only when the parameter is absent; a supplied value is used
as is. -/
def intervalMinutes (param : Option ℤ) : ℤ :=
  param.getD 60

/-- The window loop of `retrieve_for_gas`/`retrieve_summary_for_gas`
(views.py lines 449-481 and 577-596), fuel-indexed: while
`current_time < end_date`, the next boundary is `current_time + interval`
clipped to `end_date`, one window `(current_time, interval_end]` is emitted,
and `current_time` advances to `interval_end`.  The source has no fuel; a
`none` result means the loop is still running after `fuel` iterations, so
`(∀ fuel, ... = none)` is non-termination of the source loop. -/
def windowLoopFuel (end_date interval : ℤ) : ℕ → ℤ → Option (List (ℤ × ℤ))
  | 0, current_time =>
      if current_time < end_date then none else some []
  | fuel + 1, current_time =>
      if current_time < end_date then
        let interval_end :=
          if current_time + interval > end_date then end_date
          else current_time + interval
        match windowLoopFuel end_date interval fuel interval_end with
        | none => none
        | some ws => some ((current_time, interval_end) :: ws)
      else some []

/-- The list of windows the loop produces, computed with the canonical fuel
`(end_date - current).toNat`, which suffices whenever `interval > 0`. -/
def windowsFrom (end_date interval current : ℤ) : List (ℤ × ℤ) :=
  (windowLoopFuel end_date interval (end_date - current).toNat current).getD []

theorem windowLoopFuel_of_not_lt {end_date interval current : ℤ}
    (h : ¬ current < end_date) :
    ∀ n, windowLoopFuel end_date interval n current = some [] := by
  intro n
  cases n <;> simp [windowLoopFuel, h]

theorem windowLoopFuel_fuel_congr {end_date interval : ℤ} (hΔ : 0 < interval) :
    ∀ (n m : ℕ) (current : ℤ),
      (end_date - current).toNat ≤ n → (end_date - current).toNat ≤ m →
      windowLoopFuel end_date interval n current =
        windowLoopFuel end_date interval m current := by
  intro n
  induction n with
  | zero =>
    intro m current h1 _
    have hc : ¬ current < end_date := by omega
    rw [windowLoopFuel_of_not_lt hc, windowLoopFuel_of_not_lt hc]
  | succ n ih =>
    intro m current h1 h2
    by_cases hc : current < end_date
    · cases m with
      | zero => omega
      | succ m =>
        simp only [windowLoopFuel, if_pos hc]
        have hie : (end_date - (if current + interval > end_date then end_date
            else current + interval)).toNat ≤ n ∧
            (end_date - (if current + interval > end_date then end_date
            else current + interval)).toNat ≤ m := by
          constructor <;> (split <;> omega)
        rw [ih m _ hie.1 hie.2]
    · rw [windowLoopFuel_of_not_lt hc, windowLoopFuel_of_not_lt hc]

theorem windowLoopFuel_isSome {end_date interval : ℤ} (hΔ : 0 < interval) :
    ∀ (n : ℕ) (current : ℤ), (end_date - current).toNat ≤ n →
      ∃ ws, windowLoopFuel end_date interval n current = some ws := by
  intro n
  induction n with
  | zero =>
    intro current h1
    have hc : ¬ current < end_date := by omega
    exact ⟨[], windowLoopFuel_of_not_lt hc 0⟩
  | succ n ih =>
    intro current h1
    by_cases hc : current < end_date
    · have hie : (end_date - (if current + interval > end_date then end_date
          else current + interval)).toNat ≤ n := by split <;> omega
      obtain ⟨ws, hws⟩ := ih _ hie
      refine ⟨(current, if current + interval > end_date then end_date
        else current + interval) :: ws, ?_⟩
      simp only [windowLoopFuel, if_pos hc, hws]
    · exact ⟨[], windowLoopFuel_of_not_lt hc _⟩

/-- Conditional recursion equation for `windowsFrom` (valid for a positive
window size, where the loop makes progress). -/
theorem windowsFrom_eq {end_date interval : ℤ} (hΔ : 0 < interval)
    (current : ℤ) :
    windowsFrom end_date interval current =
      if current < end_date then
        (current,
          if current + interval > end_date then end_date
          else current + interval) ::
          windowsFrom end_date interval
            (if current + interval > end_date then end_date
             else current + interval)
      else [] := by
  by_cases hc : current < end_date
  · rw [if_pos hc]
    unfold windowsFrom
    have hm : ∃ k, (end_date - current).toNat = k + 1 := ⟨(end_date - current).toNat - 1, by omega⟩
    obtain ⟨k, hk⟩ := hm
    rw [hk]
    simp only [windowLoopFuel, if_pos hc]
    have hie : (end_date - (if current + interval > end_date then end_date
        else current + interval)).toNat ≤ k := by split <;> omega
    rw [windowLoopFuel_fuel_congr hΔ k _ _ hie le_rfl]
    obtain ⟨ws, hws⟩ := windowLoopFuel_isSome hΔ
      (end_date - (if current + interval > end_date then end_date
        else current + interval)).toNat _ le_rfl
    rw [hws]
    rfl
  · rw [if_neg hc]
    unfold windowsFrom
    rw [windowLoopFuel_of_not_lt hc]
    rfl

/-- C9 (code behaviour at the failing input): the interval parameter is only
defaulted to 60 when absent — a supplied `interval=0` is used as is — and with
`interval = 0` the window loop of the statistics endpoint never terminates
(for every iteration bound the loop is still running), here on the concrete
range `start = 0 < 60 = end`. -/
theorem window_loop_diverges_on_zero_interval :
    intervalMinutes (some 0) = 0 ∧ intervalMinutes none = 60 ∧
    ∀ fuel : ℕ, windowLoopFuel 60 0 fuel 0 = none := by
  refine ⟨rfl, rfl, fun fuel => ?_⟩
  induction fuel with
  | zero => decide
  | succ n ih => simp [windowLoopFuel, ih]

/-- Every window produced from `current` starts at or after `current`, is
non-degenerate, and ends at or before `end_date` (the last one is clipped). -/
theorem windowsFrom_bounds {end_date interval : ℤ} (hΔ : 0 < interval) :
    ∀ (n : ℕ) (current : ℤ), (end_date - current).toNat ≤ n →
      ∀ w ∈ windowsFrom end_date interval current,
        current ≤ w.1 ∧ w.1 < w.2 ∧ w.2 ≤ end_date := by
  intro n
  induction n with
  | zero =>
    intro current h1 w hw
    have hc : ¬ current < end_date := by omega
    rw [windowsFrom_eq hΔ, if_neg hc] at hw
    simp at hw
  | succ n ih =>
    intro current h1 w hw
    by_cases hc : current < end_date
    · rw [windowsFrom_eq hΔ, if_pos hc] at hw
      rcases List.mem_cons.mp hw with rfl | hw'
      · refine ⟨le_refl _, ?_, ?_⟩
        · show current <
            (if current + interval > end_date then end_date
             else current + interval)
          split <;> omega
        · show (if current + interval > end_date then end_date
             else current + interval) ≤ end_date
          split <;> omega
      · have hmeas : (end_date -
            (if current + interval > end_date then end_date
             else current + interval)).toNat ≤ n := by
          split <;> omega
        obtain ⟨hb1, hb2, hb3⟩ := ih _ hmeas w hw'
        refine ⟨le_trans ?_ hb1, hb2, hb3⟩
        split <;> omega
    · rw [windowsFrom_eq hΔ, if_neg hc] at hw
      simp at hw

/-- Unique-window property: every instant `x` with
`current < x ≤ end_date` lies in exactly one produced window `(w.1, w.2]`. -/
theorem windowsFrom_countP_one {end_date interval : ℤ} (hΔ : 0 < interval) :
    ∀ (n : ℕ) (current : ℤ), (end_date - current).toNat ≤ n →
      ∀ x : ℤ, current < x → x ≤ end_date →
        (windowsFrom end_date interval current).countP
          (fun w => decide (w.1 < x ∧ x ≤ w.2)) = 1 := by
  intro n
  induction n with
  | zero =>
    intro current h1 x hx1 hx2
    exfalso
    omega
  | succ n ih =>
    intro current h1 x hx1 hx2
    have hc : current < end_date := lt_of_lt_of_le hx1 hx2
    rw [windowsFrom_eq hΔ, if_pos hc, List.countP_cons]
    have hmeas : (end_date -
        (if current + interval > end_date then end_date
         else current + interval)).toNat ≤ n := by
      split <;> omega
    by_cases hxle : x ≤
        (if current + interval > end_date then end_date
         else current + interval)
    · have h0 : (windowsFrom end_date interval
          (if current + interval > end_date then end_date
           else current + interval)).countP
          (fun w => decide (w.1 < x ∧ x ≤ w.2)) = 0 := by
        rw [List.countP_eq_zero]
        intro w hw
        have hb := windowsFrom_bounds hΔ n _ hmeas w hw
        simp only [decide_eq_true_eq, not_and]
        intro hwx
        omega
      rw [h0]
      simp [hx1, hxle]
    · have hrec := ih _ hmeas x (by omega) hx2
      rw [hrec]
      simp [hxle]

/-- Django's `Avg` aggregate: `NULL` on an empty set, otherwise the arithmetic
mean. -/
def avgOf (l : List ℚ) : Option ℚ :=
  if l = [] then none else some (l.sum / l.length)

/-- Django's `Min` aggregate / Python's `min` on a list. -/
def minOf (l : List ℚ) : Option ℚ :=
  match l with
  | [] => none
  | x :: xs => some (xs.foldl min x)

/-- Django's `Max` aggregate / Python's `max` on a list. -/
def maxOf (l : List ℚ) : Option ℚ :=
  match l with
  | [] => none
  | x :: xs => some (xs.foldl max x)

theorem foldl_min_le_acc : ∀ (xs : List ℚ) (a : ℚ), xs.foldl min a ≤ a := by
  intro xs
  induction xs with
  | nil => intro a; exact le_refl a
  | cons x xs ih =>
    intro a
    exact le_trans (ih (min a x)) (min_le_left a x)

theorem foldl_min_le : ∀ (xs : List ℚ) (a : ℚ), ∀ x ∈ xs, xs.foldl min a ≤ x := by
  intro xs
  induction xs with
  | nil => intro a x hx; simp at hx
  | cons y ys ih =>
    intro a x hx
    rcases List.mem_cons.mp hx with rfl | hx'
    · exact le_trans (foldl_min_le_acc ys (min a x)) (min_le_right a x)
    · exact ih (min a y) x hx'

theorem foldl_min_mem : ∀ (xs : List ℚ) (a : ℚ), xs.foldl min a = a ∨ xs.foldl min a ∈ xs := by
  intro xs
  induction xs with
  | nil => intro a; exact Or.inl rfl
  | cons y ys ih =>
    intro a
    rcases ih (min a y) with h | h
    · rcases min_choice a y with hm | hm
      · exact Or.inl (by rw [List.foldl_cons, h, hm])
      · exact Or.inr (by rw [List.foldl_cons, h, hm]; exact List.mem_cons_self y ys)
    · exact Or.inr (List.mem_cons_of_mem y h)

theorem minOf_le {l : List ℚ} {m : ℚ} (h : minOf l = some m) :
    ∀ x ∈ l, m ≤ x := by
  match l with
  | [] => simp [minOf] at h
  | y :: ys =>
    simp only [minOf, Option.some.injEq] at h
    intro x hx
    rcases List.mem_cons.mp hx with rfl | hx'
    · exact h ▸ foldl_min_le_acc ys x
    · exact h ▸ foldl_min_le ys y x hx'

theorem minOf_mem {l : List ℚ} {m : ℚ} (h : minOf l = some m) : m ∈ l := by
  match l with
  | [] => simp [minOf] at h
  | y :: ys =>
    simp only [minOf, Option.some.injEq] at h
    rcases foldl_min_mem ys y with h' | h'
    · rw [← h, h']
      exact List.mem_cons_self y ys
    · rw [← h]
      exact List.mem_cons_of_mem y h'

theorem foldl_max_le_acc : ∀ (xs : List ℚ) (a : ℚ), a ≤ xs.foldl max a := by
  intro xs
  induction xs with
  | nil => intro a; exact le_refl a
  | cons x xs ih =>
    intro a
    exact le_trans (le_max_left a x) (ih (max a x))

theorem foldl_max_le : ∀ (xs : List ℚ) (a : ℚ), ∀ x ∈ xs, x ≤ xs.foldl max a := by
  intro xs
  induction xs with
  | nil => intro a x hx; simp at hx
  | cons y ys ih =>
    intro a x hx
    rcases List.mem_cons.mp hx with rfl | hx'
    · exact le_trans (le_max_right a x) (foldl_max_le_acc ys (max a x))
    · exact ih (max a y) x hx'

theorem foldl_max_mem : ∀ (xs : List ℚ) (a : ℚ), xs.foldl max a = a ∨ xs.foldl max a ∈ xs := by
  intro xs
  induction xs with
  | nil => intro a; exact Or.inl rfl
  | cons y ys ih =>
    intro a
    rcases ih (max a y) with h | h
    · rcases max_choice a y with hm | hm
      · exact Or.inl (by rw [List.foldl_cons, h, hm])
      · exact Or.inr (by rw [List.foldl_cons, h, hm]; exact List.mem_cons_self y ys)
    · exact Or.inr (List.mem_cons_of_mem y h)

theorem maxOf_le {l : List ℚ} {m : ℚ} (h : maxOf l = some m) :
    ∀ x ∈ l, x ≤ m := by
  match l with
  | [] => simp [maxOf] at h
  | y :: ys =>
    simp only [maxOf, Option.some.injEq] at h
    intro x hx
    rcases List.mem_cons.mp hx with rfl | hx'
    · exact h ▸ foldl_max_le_acc ys x
    · exact h ▸ foldl_max_le ys y x hx'

theorem maxOf_mem {l : List ℚ} {m : ℚ} (h : maxOf l = some m) : m ∈ l := by
  match l with
  | [] => simp [maxOf] at h
  | y :: ys =>
    simp only [maxOf, Option.some.injEq] at h
    rcases foldl_max_mem ys y with h' | h'
    · rw [← h, h']
      exact List.mem_cons_self y ys
    · rw [← h]
      exact List.mem_cons_of_mem y h'

theorem sum_le_length_mul {l : List ℚ} {M : ℚ} (h : ∀ x ∈ l, x ≤ M) :
    l.sum ≤ l.length * M := by
  induction l with
  | nil => simp
  | cons x xs ih =>
    have hx := h x (List.mem_cons_self x xs)
    have hxs := ih fun y hy => h y (List.mem_cons_of_mem x hy)
    simp only [List.sum_cons, List.length_cons]
    push_cast
    nlinarith

theorem length_mul_le_sum {l : List ℚ} {m : ℚ} (h : ∀ x ∈ l, m ≤ x) :
    l.length * m ≤ l.sum := by
  induction l with
  | nil => simp
  | cons x xs ih =>
    have hx := h x (List.mem_cons_self x xs)
    have hxs := ih fun y hy => h y (List.mem_cons_of_mem x hy)
    simp only [List.sum_cons, List.length_cons]
    push_cast
    nlinarith

theorem sum_map_add {α M : Type} [AddCommMonoid M] (l : List α) (f g : α → M) :
    (l.map fun a => f a + g a).sum = (l.map f).sum + (l.map g).sum := by
  induction l with
  | nil => simp
  | cons x xs ih =>
    simp only [List.map_cons, List.sum_cons, ih]
    exact add_add_add_comm _ _ _ _

theorem sum_map_zero {α M : Type} [AddCommMonoid M] (l : List α) :
    (l.map fun _ => (0 : M)).sum = 0 := by
  induction l <;> simp [*]

theorem length_filter_eq_sum {α : Type} (l : List α) (p : α → Bool) :
    (l.filter p).length = (l.map fun a => if p a then 1 else 0).sum := by
  induction l with
  | nil => rfl
  | cons x xs ih =>
    by_cases h : p x <;> simp [List.filter_cons, h, ih, Nat.add_comm]

theorem filter_map_val_sum {α : Type} (l : List α) (p : α → Bool) (val : α → ℚ) :
    ((l.filter p).map val).sum = (l.map fun a => if p a then val a else 0).sum := by
  induction l with
  | nil => rfl
  | cons x xs ih =>
    by_cases h : p x <;> simp [List.filter_cons, h, ih]

/-- Interchange of summation: summing per-window element counts over a window
list equals summing, per element, the number of windows it falls in. -/
theorem sum_window_counts {W α : Type} (ws : List W) (l : List α)
    (inW : W → α → Bool) :
    (ws.map fun w => (l.filter (inW w)).length).sum =
    (l.map fun a => ws.countP fun w => inW w a).sum := by
  induction ws with
  | nil =>
    simp only [List.map_nil, List.sum_nil, List.countP_nil]
    exact (sum_map_zero l).symm
  | cons w ws ih =>
    simp only [List.map_cons, List.sum_cons]
    rw [ih, length_filter_eq_sum l (inW w), ← sum_map_add]
    apply congrArg
    congr 1
    funext a
    rw [List.countP_cons]
    exact Nat.add_comm _ _

/-- Interchange of summation for window value sums over ℚ. -/
theorem sum_window_sums {W α : Type} (ws : List W) (l : List α)
    (inW : W → α → Bool) (val : α → ℚ) :
    (ws.map fun w => ((l.filter (inW w)).map val).sum).sum =
    (l.map fun a => ((ws.countP fun w => inW w a : ℕ) : ℚ) * val a).sum := by
  induction ws with
  | nil =>
    simp only [List.map_nil, List.sum_nil, List.countP_nil, Nat.cast_zero,
      zero_mul]
    exact (sum_map_zero l).symm
  | cons w ws ih =>
    simp only [List.map_cons, List.sum_cons]
    rw [ih, filter_map_val_sum l (inW w) val, ← sum_map_add]
    apply congrArg
    congr 1
    funext a
    rw [List.countP_cons]
    push_cast
    by_cases h : inW w a
    · simp [h]
      ring
    · simp [h]

/-- The per-window reading test of both statistics loops (views.py lines
457-460 and 585-588): `log_time__gt=current_time, log_time__lte=interval_end`,
i.e. the half-open window `(w.1, w.2]`. -/
def inWindow (w : ℤ × ℤ) (r : Reading) : Bool :=
  decide (w.1 < r.log_time ∧ r.log_time ≤ w.2)

/-- The base queryset of the two gas-statistics endpoints (views.py lines
431-435 and 551-555): readings at the URL's location, for the URL's gas, and
only those whose `validation` is null. -/
def baseQueryset (readings : List Reading) (location_id : ℕ)
    (gas_code : String) : List Reading :=
  readings.filter fun r =>
    decide (r.location.map LocRef.id = some location_id) &&
    decide (r.sensor.gas_code = gas_code) &&
    decide (r.validation = none)

/-- The date-range filter `log_time__gte=start_date, log_time__lte=end_date`
(views.py lines 438-441 and 558-561) applied on top of `baseQueryset`. -/
def statsQueryset (readings : List Reading) (location_id : ℕ)
    (gas_code : String) (start_date end_date : ℤ) : List Reading :=
  (baseQueryset readings location_id gas_code).filter fun r =>
    decide (start_date ≤ r.log_time) && decide (r.log_time ≤ end_date)

/-- One element of the series returned by `retrieve_for_gas` (views.py lines
471-478): window bounds plus the four per-window aggregates; the aggregates of
an empty window are null and its count is 0. -/
structure IntervalStat where
  interval_start : ℤ
  interval_end : ℤ
  avg : Option ℚ
  min : Option ℚ
  max : Option ℚ
  count : ℕ
deriving DecidableEq

/-- `JobLocationGasStatsViewSet.retrieve_for_gas` (views.py lines 429-482),
after parameter parsing: the filtered queryset, then the window loop, each
iteration unconditionally appending that window's aggregate record. -/
def retrieve_for_gas (readings : List Reading) (location_id : ℕ)
    (gas_code : String) (start_date end_date interval : ℤ) :
    List IntervalStat :=
  let queryset := statsQueryset readings location_id gas_code start_date end_date
  (windowsFrom end_date interval start_date).map fun w =>
    let interval_readings := queryset.filter (inWindow w)
    { interval_start := w.1
      interval_end := w.2
      avg := avgOf (interval_readings.map Reading.reading)
      min := minOf (interval_readings.map Reading.reading)
      max := maxOf (interval_readings.map Reading.reading)
      count := interval_readings.length }

/-- The result record of `retrieve_summary_for_gas` (views.py lines 606-613). -/
structure GasSummary where
  average : Option ℚ
  count : ℕ
  max_avg : Option ℚ
  min_avg : Option ℚ
  max_individual : Option ℚ
  min_individual : Option ℚ
deriving DecidableEq

/-- The `interval_averages` list of `retrieve_summary_for_gas` (views.py lines
575-596): the window loop keeps, in order, the average of each window that has
one (empty windows append nothing). -/
def intervalAverages (queryset : List Reading) (start_date end_date interval : ℤ) :
    List ℚ :=
  (windowsFrom end_date interval start_date).filterMap fun w =>
    avgOf ((queryset.filter (inWindow w)).map Reading.reading)

/-- `JobLocationGasStatsViewSet.retrieve_summary_for_gas` (views.py lines
549-615), after parameter parsing: whole-range aggregates over the filtered
queryset, and min/max over the per-window averages. -/
def retrieve_summary_for_gas (readings : List Reading) (location_id : ℕ)
    (gas_code : String) (start_date end_date interval : ℤ) : GasSummary :=
  let queryset := statsQueryset readings location_id gas_code start_date end_date
  let interval_averages := intervalAverages queryset start_date end_date interval
  { average := avgOf (queryset.map Reading.reading)
    count := queryset.length
    max_avg := maxOf interval_averages
    min_avg := minOf interval_averages
    max_individual := maxOf (queryset.map Reading.reading)
    min_individual := minOf (queryset.map Reading.reading) }

theorem countP_congr_mem {α : Type} {l : List α} {p q : α → Bool}
    (h : ∀ a ∈ l, p a = q a) : l.countP p = l.countP q := by
  induction l with
  | nil => rfl
  | cons x xs ih =>
    rw [List.countP_cons, List.countP_cons, h x (List.mem_cons_self x xs),
      ih fun a ha => h a (List.mem_cons_of_mem x ha)]

theorem sum_map_congr_mem {α M : Type} [AddCommMonoid M] {l : List α}
    {f g : α → M} (h : ∀ a ∈ l, f a = g a) : (l.map f).sum = (l.map g).sum := by
  induction l with
  | nil => rfl
  | cons x xs ih =>
    simp only [List.map_cons, List.sum_cons, h x (List.mem_cons_self x xs),
      ih fun a ha => h a (List.mem_cons_of_mem x ha)]

theorem sum_map_eq_length {α : Type} {l : List α} {f : α → ℕ}
    (h : ∀ a ∈ l, f a = 1) : (l.map f).sum = l.length := by
  induction l with
  | nil => rfl
  | cons x xs ih =>
    simp only [List.map_cons, List.sum_cons, List.length_cons,
      h x (List.mem_cons_self x xs),
      ih fun a ha => h a (List.mem_cons_of_mem x ha)]
    exact Nat.add_comm 1 xs.length

theorem sum_map_mul_right {α : Type} (l : List α) (f : α → ℚ) (c : ℚ) :
    (l.map fun a => f a * c).sum = (l.map f).sum * c := by
  induction l with
  | nil => simp
  | cons x xs ih =>
    simp only [List.map_cons, List.sum_cons, ih]
    ring

theorem avgOf_eq_some {l : List ℚ} {a : ℚ} :
    avgOf l = some a ↔ l ≠ [] ∧ a = l.sum / l.length := by
  unfold avgOf
  split
  · simp [*]
  · simp only [Option.some.injEq]
    constructor
    · intro h
      exact ⟨by assumption, h.symm⟩
    · intro ⟨_, h⟩
      exact h.symm

/-- With a non-positive interval the loop body never advances past
`end_date`, so the loop never finishes: the fuelled embedding answers `none`
for every fuel whenever there is any span to cover. -/
theorem windowLoopFuel_nonpos_none {end_date interval : ℤ}
    (hΔ : interval ≤ 0) :
    ∀ (fuel : ℕ) (current : ℤ), current < end_date →
      windowLoopFuel end_date interval fuel current = none := by
  intro fuel
  induction fuel with
  | zero =>
    intro current hc
    simp [windowLoopFuel, hc]
  | succ n ih =>
    intro current hc
    have hie : ¬ current + interval > end_date := by omega
    simp only [windowLoopFuel, if_pos hc, if_neg hie]
    rw [ih (current + interval) (by omega)]

/-- Consequently `windowsFrom` is empty for a non-positive interval. -/
theorem windowsFrom_nonpos {end_date interval : ℤ} (hΔ : interval ≤ 0)
    (current : ℤ) : windowsFrom end_date interval current = [] := by
  unfold windowsFrom
  by_cases hc : current < end_date
  · rw [windowLoopFuel_nonpos_none hΔ _ _ hc]
    rfl
  · rw [windowLoopFuel_of_not_lt hc]
    rfl

/-- Every produced window starts at or after the loop's starting instant,
whatever the interval. -/
theorem windowsFrom_start_le {end_date interval current : ℤ} :
    ∀ w ∈ windowsFrom end_date interval current, current ≤ w.1 := by
  intro w hw
  by_cases hΔ : 0 < interval
  · exact (windowsFrom_bounds hΔ (end_date - current).toNat current le_rfl w hw).1
  · rw [windowsFrom_nonpos (by omega) current] at hw
    simp at hw

/-- C4: after the location backfill pass, every reading either carries the
location of some schedule that matches it (its detector owns the reading's
sensor and its inclusive interval `[start_dt, stop_dt]` — open-ended when
`stop_dt` is absent — contains the timestamp), or is matched by no schedule
at all and carries the cleared value `none`; all other fields are those of an
input reading. -/
theorem updateSensorReadingLocations_spec
    (schedules : List LocationSchedule) (locationOf : ℕ → LocRef)
    (readings : List Reading) :
    ∀ r' ∈ updateSensorReadingLocations schedules locationOf readings,
      ∃ r ∈ readings,
        r'.sensor = r.sensor ∧ r'.log_time = r.log_time ∧
        r'.reading = r.reading ∧ r'.validation = r.validation ∧
        ((∃ s ∈ schedules, scheduleMatches s r' = true ∧
            r'.location = some (locationOf s.locationId)) ∨
          ((∀ s ∈ schedules, scheduleMatches s r' = false) ∧
            r'.location = none)) := by
  intro r' hr'
  unfold updateSensorReadingLocations at hr'
  obtain ⟨r1, hr1, hsen, hlog, hread, hval, hloc⟩ :=
    backfill_fold_invariant locationOf schedules _ r' hr'
  obtain ⟨r0, hr0, hr0eq⟩ := List.mem_map.mp hr1
  have hsen0 : r'.sensor = r0.sensor := by rw [hsen, ← hr0eq]
  have hlog0 : r'.log_time = r0.log_time := by rw [hlog, ← hr0eq]
  have hmc : ∀ t, scheduleMatches t r1 = scheduleMatches t r' := fun t =>
    scheduleMatches_congr t r' r1 (by rw [← hr0eq, hsen0]) (by rw [← hr0eq, hlog0])
  refine ⟨r0, hr0, hsen0, hlog0, by rw [hread, ← hr0eq], by rw [hval, ← hr0eq], ?_⟩
  rcases hloc with ⟨hleq, hnone⟩ | ⟨s, hs, hms, hleq⟩
  · refine Or.inr ⟨fun s hs => ?_, by rw [hleq, ← hr0eq]⟩
    rw [← hmc s]
    exact hnone s hs
  · exact Or.inl ⟨s, hs, (hmc s) ▸ hms, hleq⟩

/-- Witness for `updateSensorReadingLocations_spec` at a concrete input: one
schedule, one reading inside its interval (it gets the schedule's location)
and one outside (it is cleared). -/
theorem updateSensorReadingLocations_spec_witness :
    ∃ r ∈ [(⟨⟨1, 7, "CO"⟩, 150, 5, none, none⟩ : Reading),
           ⟨⟨1, 7, "CO"⟩, 250, 6, none, none⟩],
      (⟨⟨1, 7, "CO"⟩, 150, 5, some ⟨4, "A"⟩, none⟩ : Reading).sensor = r.sensor ∧
      (⟨⟨1, 7, "CO"⟩, 150, 5, some ⟨4, "A"⟩, none⟩ : Reading).log_time = r.log_time ∧
      (⟨⟨1, 7, "CO"⟩, 150, 5, some ⟨4, "A"⟩, none⟩ : Reading).reading = r.reading ∧
      (⟨⟨1, 7, "CO"⟩, 150, 5, some ⟨4, "A"⟩, none⟩ : Reading).validation = r.validation ∧
      ((∃ s ∈ [(⟨some 1, 4, 7, 100, some 200⟩ : LocationSchedule)],
          scheduleMatches s ⟨⟨1, 7, "CO"⟩, 150, 5, some ⟨4, "A"⟩, none⟩ = true ∧
          (⟨⟨1, 7, "CO"⟩, 150, 5, some ⟨4, "A"⟩, none⟩ : Reading).location =
            some ⟨s.locationId, "A"⟩) ∨
        ((∀ s ∈ [(⟨some 1, 4, 7, 100, some 200⟩ : LocationSchedule)],
            scheduleMatches s ⟨⟨1, 7, "CO"⟩, 150, 5, some ⟨4, "A"⟩, none⟩ = false) ∧
          (⟨⟨1, 7, "CO"⟩, 150, 5, some ⟨4, "A"⟩, none⟩ : Reading).location = none)) :=
  updateSensorReadingLocations_spec
    [⟨some 1, 4, 7, 100, some 200⟩] (fun n => ⟨n, "A"⟩)
    [⟨⟨1, 7, "CO"⟩, 150, 5, none, none⟩, ⟨⟨1, 7, "CO"⟩, 250, 6, none, none⟩]
    ⟨⟨1, 7, "CO"⟩, 150, 5, some ⟨4, "A"⟩, none⟩ (by decide)

/-- C6 counterexample: with no readings at all (so no window contains a
matching reading) the statistics series still has an entry for the single
window of the range 0..60 — an entry with count 0 and null aggregates —
so entries are not restricted to windows with at least one matching reading. -/
theorem retrieve_for_gas_empty_window_entry :
    retrieve_for_gas [] 1 "CO" 0 60 60 =
      [{ interval_start := 0, interval_end := 60, avg := none, min := none,
         max := none, count := 0 }] := by
  decide

/-- C6 amended: the series of `retrieve_for_gas` has one entry for *every*
window of the range — the loop appends unconditionally — and a window with no
matching reading appears with count 0 and null avg/min/max rather than being
absent. -/
theorem retrieve_for_gas_entry_every_window
    (readings : List Reading) (location_id : ℕ) (gas_code : String)
    (start_date end_date interval : ℤ) :
    ∀ w ∈ windowsFrom end_date interval start_date,
      ∃ e ∈ retrieve_for_gas readings location_id gas_code start_date
          end_date interval,
        e.interval_start = w.1 ∧ e.interval_end = w.2 ∧
        e.count = ((statsQueryset readings location_id gas_code start_date
          end_date).filter (inWindow w)).length ∧
        (e.count = 0 → e.avg = none ∧ e.min = none ∧ e.max = none) := by
  intro w hw
  refine ⟨_, List.mem_map_of_mem _ hw, rfl, rfl, rfl, fun hc => ?_⟩
  have hnil : (statsQueryset readings location_id gas_code start_date
      end_date).filter (inWindow w) = [] := List.length_eq_zero.mp hc
  simp only [hnil]
  exact ⟨rfl, rfl, rfl⟩

/-- Witness for `retrieve_for_gas_entry_every_window`: the single window of
the range 0..60 with one in-window reading has an entry with count 1. -/
theorem retrieve_for_gas_entry_every_window_witness :
    ∃ e ∈ retrieve_for_gas [⟨⟨1, 1, "CO"⟩, 30, 5, some ⟨1, "A"⟩, none⟩]
        1 "CO" 0 60 60,
      e.interval_start = (((0 : ℤ), (60 : ℤ)) : ℤ × ℤ).1 ∧
      e.interval_end = (((0 : ℤ), (60 : ℤ)) : ℤ × ℤ).2 ∧
      e.count = ((statsQueryset [⟨⟨1, 1, "CO"⟩, 30, 5, some ⟨1, "A"⟩, none⟩]
        1 "CO" 0 60).filter (inWindow ((0 : ℤ), (60 : ℤ)))).length ∧
      (e.count = 0 → e.avg = none ∧ e.min = none ∧ e.max = none) :=
  retrieve_for_gas_entry_every_window
    [⟨⟨1, 1, "CO"⟩, 30, 5, some ⟨1, "A"⟩, none⟩] 1 "CO" 0 60 60
    ((0 : ℤ), (60 : ℤ)) (by decide)

/-- Readings of the range-filtered queryset lie in `[start_date, end_date]`
and come from the base queryset. -/
theorem mem_statsQueryset {readings : List Reading} {location_id : ℕ}
    {gas_code : String} {start_date end_date : ℤ} {r : Reading}
    (h : r ∈ statsQueryset readings location_id gas_code start_date end_date) :
    r ∈ baseQueryset readings location_id gas_code ∧
    start_date ≤ r.log_time ∧ r.log_time ≤ end_date := by
  have := List.mem_filter.mp h
  simp only [Bool.and_eq_true, decide_eq_true_eq] at this
  exact ⟨this.1, this.2.1, this.2.2⟩

/-- C5: for a positive window size, if no reading of the filtered set falls
exactly on `start_date`, the per-window counts of the statistics series sum to
the number of filtered readings with timestamp in `(start_date, end_date]` —
the consecutive half-open windows neither drop nor double-count a reading. -/
theorem retrieve_for_gas_count_partition
    (readings : List Reading) (location_id : ℕ) (gas_code : String)
    (start_date end_date interval : ℤ) (hΔ : 0 < interval)
    (hstart : ∀ r ∈ baseQueryset readings location_id gas_code,
        r.log_time ≠ start_date) :
    ((retrieve_for_gas readings location_id gas_code start_date end_date
        interval).map IntervalStat.count).sum =
      (baseQueryset readings location_id gas_code).countP
        (fun r => decide (start_date < r.log_time ∧ r.log_time ≤ end_date)) := by
  unfold retrieve_for_gas
  rw [List.map_map]
  have hqs : ∀ r ∈ statsQueryset readings location_id gas_code start_date
      end_date, start_date < r.log_time ∧ r.log_time ≤ end_date := by
    intro r hr
    obtain ⟨hb, h1, h2⟩ := mem_statsQueryset hr
    exact ⟨lt_of_le_of_ne h1 (Ne.symm (hstart r hb)), h2⟩
  have hsum : ((windowsFrom end_date interval start_date).map fun w =>
      ((statsQueryset readings location_id gas_code start_date
        end_date).filter (inWindow w)).length).sum =
      (statsQueryset readings location_id gas_code start_date end_date).length := by
    rw [sum_window_counts]
    apply sum_map_eq_length
    intro r hr
    exact windowsFrom_countP_one hΔ (end_date - start_date).toNat start_date
      le_rfl r.log_time (hqs r hr).1 (hqs r hr).2
  rw [show ((windowsFrom end_date interval start_date).map
      (IntervalStat.count ∘ fun w =>
        let interval_readings := (statsQueryset readings location_id gas_code
          start_date end_date).filter (inWindow w)
        ({ interval_start := w.1, interval_end := w.2,
           avg := avgOf (interval_readings.map Reading.reading),
           min := minOf (interval_readings.map Reading.reading),
           max := maxOf (interval_readings.map Reading.reading),
           count := interval_readings.length } : IntervalStat))).sum =
      ((windowsFrom end_date interval start_date).map fun w =>
        ((statsQueryset readings location_id gas_code start_date
          end_date).filter (inWindow w)).length).sum from rfl]
  rw [hsum]
  unfold statsQueryset
  rw [← List.countP_eq_length_filter]
  apply countP_congr_mem
  intro r hr
  have ht := hstart r hr
  by_cases h1 : start_date ≤ r.log_time <;> by_cases h2 : r.log_time ≤ end_date <;>
    simp [h1, h2] <;> omega

/-- Witness for `retrieve_for_gas_count_partition`: two readings in two
consecutive windows of the range 0..120, none at the range start. -/
theorem retrieve_for_gas_count_partition_witness :
    ((retrieve_for_gas
        [⟨⟨1, 1, "CO"⟩, 30, 5, some ⟨1, "A"⟩, none⟩,
         ⟨⟨1, 1, "CO"⟩, 90, 6, some ⟨1, "A"⟩, none⟩] 1 "CO" 0 120 60).map
        IntervalStat.count).sum =
      (baseQueryset
        [⟨⟨1, 1, "CO"⟩, 30, 5, some ⟨1, "A"⟩, none⟩,
         ⟨⟨1, 1, "CO"⟩, 90, 6, some ⟨1, "A"⟩, none⟩] 1 "CO").countP
        (fun r => decide (0 < r.log_time ∧ r.log_time ≤ 120)) :=
  retrieve_for_gas_count_partition
    [⟨⟨1, 1, "CO"⟩, 30, 5, some ⟨1, "A"⟩, none⟩,
     ⟨⟨1, 1, "CO"⟩, 90, 6, some ⟨1, "A"⟩, none⟩] 1 "CO" 0 120 60
    (by decide) (by decide)

/-- Concrete evaluation of the summary endpoint on a reading of 100 exactly at
the range start plus a reading of 0 inside the single window of range 0..60:
the whole-range average is 50, the only window average is 0. -/
theorem boundaryExample_summary_eval :
    (retrieve_summary_for_gas
        [⟨⟨1, 1, "CO"⟩, 0, 100, some ⟨1, "A"⟩, none⟩,
         ⟨⟨1, 1, "CO"⟩, 30, 0, some ⟨1, "A"⟩, none⟩] 1 "CO" 0 60 60).average =
      some 50 ∧
    (retrieve_summary_for_gas
        [⟨⟨1, 1, "CO"⟩, 0, 100, some ⟨1, "A"⟩, none⟩,
         ⟨⟨1, 1, "CO"⟩, 30, 0, some ⟨1, "A"⟩, none⟩] 1 "CO" 0 60 60).max_avg =
      some 0 := by
  have hwin : windowsFrom 60 60 0 = [((0 : ℤ), (60 : ℤ))] := by decide
  unfold retrieve_summary_for_gas intervalAverages
  rw [hwin]
  constructor
  · norm_num [statsQueryset, baseQueryset, avgOf, List.filter]
    intro h
    simp at h
  · norm_num [statsQueryset, baseQueryset, avgOf, maxOf, inWindow,
      List.filter, List.filterMap]

/-- C10: a reading whose timestamp is exactly `start_date` passes the
whole-range filter `log_time__gte=start_date` (so it enters average, count and
the individual min/max) but satisfies no window's strict lower bound
`log_time__gt=window_start`, since every window starts at or after
`start_date`; concretely, with a reading of 100 at the range start and one of
0 inside the single window of range 0..60, the whole-range average is 50 while
the largest per-window average is 0. -/
theorem start_boundary_reading_counted_but_unwindowed
    (readings : List Reading) (location_id : ℕ) (gas_code : String)
    (start_date end_date interval : ℤ) (r : Reading)
    (hmem : r ∈ baseQueryset readings location_id gas_code)
    (hat : r.log_time = start_date) (hrange : start_date ≤ end_date) :
    r ∈ statsQueryset readings location_id gas_code start_date end_date ∧
    (∀ w ∈ windowsFrom end_date interval start_date, inWindow w r = false) ∧
    (retrieve_summary_for_gas
        [⟨⟨1, 1, "CO"⟩, 0, 100, some ⟨1, "A"⟩, none⟩,
         ⟨⟨1, 1, "CO"⟩, 30, 0, some ⟨1, "A"⟩, none⟩] 1 "CO" 0 60 60).average =
      some 50 ∧
    (retrieve_summary_for_gas
        [⟨⟨1, 1, "CO"⟩, 0, 100, some ⟨1, "A"⟩, none⟩,
         ⟨⟨1, 1, "CO"⟩, 30, 0, some ⟨1, "A"⟩, none⟩] 1 "CO" 0 60 60).max_avg =
      some 0 := by
  refine ⟨?_, ?_, boundaryExample_summary_eval.1, boundaryExample_summary_eval.2⟩
  · unfold statsQueryset
    rw [List.mem_filter]
    refine ⟨hmem, ?_⟩
    simp only [Bool.and_eq_true, decide_eq_true_eq]
    omega
  · intro w hw
    have hle := windowsFrom_start_le w hw
    unfold inWindow
    simp only [decide_eq_false_iff_not, not_and, not_le]
    intro hlt
    omega

/-- Witness for `start_boundary_reading_counted_but_unwindowed`, at the very
input of its concrete half: the reading of 100 at instant 0 = range start. -/
theorem start_boundary_reading_witness :
    (⟨⟨1, 1, "CO"⟩, 0, 100, some ⟨1, "A"⟩, none⟩ : Reading) ∈
      statsQueryset
        [⟨⟨1, 1, "CO"⟩, 0, 100, some ⟨1, "A"⟩, none⟩,
         ⟨⟨1, 1, "CO"⟩, 30, 0, some ⟨1, "A"⟩, none⟩] 1 "CO" 0 60 ∧
    (∀ w ∈ windowsFrom 60 60 0,
      inWindow w ⟨⟨1, 1, "CO"⟩, 0, 100, some ⟨1, "A"⟩, none⟩ = false) ∧
    (retrieve_summary_for_gas
        [⟨⟨1, 1, "CO"⟩, 0, 100, some ⟨1, "A"⟩, none⟩,
         ⟨⟨1, 1, "CO"⟩, 30, 0, some ⟨1, "A"⟩, none⟩] 1 "CO" 0 60 60).average =
      some 50 ∧
    (retrieve_summary_for_gas
        [⟨⟨1, 1, "CO"⟩, 0, 100, some ⟨1, "A"⟩, none⟩,
         ⟨⟨1, 1, "CO"⟩, 30, 0, some ⟨1, "A"⟩, none⟩] 1 "CO" 0 60 60).max_avg =
      some 0 :=
  start_boundary_reading_counted_but_unwindowed
    [⟨⟨1, 1, "CO"⟩, 0, 100, some ⟨1, "A"⟩, none⟩,
     ⟨⟨1, 1, "CO"⟩, 30, 0, some ⟨1, "A"⟩, none⟩] 1 "CO" 0 60 60
    ⟨⟨1, 1, "CO"⟩, 0, 100, some ⟨1, "A"⟩, none⟩
    (by decide) (by decide) (by decide)

/-- C1 counterexample: at the concrete input of
`start_boundary_reading_counted_but_unwindowed` — a reading of 100 exactly at
the range start and a reading of 0 inside the only window — the summary has
`average = 50` but `max_avg = 0`, violating the claimed chain
`time_period_average <= max_of_window_averages`. -/
theorem summary_chain_violated_at_boundary :
    (retrieve_summary_for_gas
        [⟨⟨1, 1, "CO"⟩, 0, 100, some ⟨1, "A"⟩, none⟩,
         ⟨⟨1, 1, "CO"⟩, 30, 0, some ⟨1, "A"⟩, none⟩] 1 "CO" 0 60 60).average =
      some 50 ∧
    (retrieve_summary_for_gas
        [⟨⟨1, 1, "CO"⟩, 0, 100, some ⟨1, "A"⟩, none⟩,
         ⟨⟨1, 1, "CO"⟩, 30, 0, some ⟨1, "A"⟩, none⟩] 1 "CO" 0 60 60).max_avg =
      some 0 ∧
    ¬ ((50 : ℚ) ≤ 0) := by
  refine ⟨boundaryExample_summary_eval.1, boundaryExample_summary_eval.2,
    by norm_num⟩

theorem sum_map_natCast {α : Type} (l : List α) (f : α → ℕ) :
    (l.map fun a => ((f a : ℕ) : ℚ)).sum = (((l.map f).sum : ℕ) : ℚ) := by
  induction l with
  | nil => simp
  | cons x xs ih => simp [ih]

/-- C1 (amended): for a positive window size, when no filtered reading falls
exactly on `start_date` (see the C10 boundary effect) and all five summary
statistics are defined, they satisfy
`min_individual <= min_avg <= average <= max_avg <= max_individual`:
the windows then partition the filtered readings, so the whole-range average
is a count-weighted mean of the window averages, and each window average lies
between the individual extremes. -/
theorem summary_five_number_chain
    (readings : List Reading) (location_id : ℕ) (gas_code : String)
    (start_date end_date interval : ℤ) (hΔ : 0 < interval)
    (hstart : ∀ r ∈ statsQueryset readings location_id gas_code start_date
        end_date, r.log_time ≠ start_date)
    (a mina maxa mini maxi : ℚ)
    (ha : (retrieve_summary_for_gas readings location_id gas_code start_date
        end_date interval).average = some a)
    (hmina : (retrieve_summary_for_gas readings location_id gas_code start_date
        end_date interval).min_avg = some mina)
    (hmaxa : (retrieve_summary_for_gas readings location_id gas_code start_date
        end_date interval).max_avg = some maxa)
    (hmini : (retrieve_summary_for_gas readings location_id gas_code start_date
        end_date interval).min_individual = some mini)
    (hmaxi : (retrieve_summary_for_gas readings location_id gas_code start_date
        end_date interval).max_individual = some maxi) :
    mini ≤ mina ∧ mina ≤ a ∧ a ≤ maxa ∧ maxa ≤ maxi := by
  simp only [retrieve_summary_for_gas] at ha hmina hmaxa hmini hmaxi
  set qs := statsQueryset readings location_id gas_code start_date end_date
    with hqs_def
  set ws := windowsFrom end_date interval start_date with hws_def
  -- each interval average is the average of one window's readings
  have hwin_avg_mem : ∀ y ∈ intervalAverages qs start_date end_date interval,
      ∃ w ∈ ws, avgOf ((qs.filter (inWindow w)).map Reading.reading) = some y := by
    intro y hy
    exact List.mem_filterMap.mp hy
  have hsub : ∀ (w : ℤ × ℤ) (x : ℚ),
      x ∈ (qs.filter (inWindow w)).map Reading.reading →
      x ∈ qs.map Reading.reading := by
    intro w x hx
    obtain ⟨r, hr, rfl⟩ := List.mem_map.mp hx
    exact List.mem_map_of_mem _ (List.mem_of_mem_filter hr)
  -- every interval average lies between the individual extremes
  have hbound : ∀ y ∈ intervalAverages qs start_date end_date interval,
      mini ≤ y ∧ y ≤ maxi := by
    intro y hy
    obtain ⟨w, hw, hwy⟩ := hwin_avg_mem y hy
    obtain ⟨hne, hyeq⟩ := avgOf_eq_some.mp hwy
    have hlen : 0 < ((qs.filter (inWindow w)).map Reading.reading).length :=
      List.length_pos.mpr hne
    have hlenq : (0 : ℚ) <
        ((qs.filter (inWindow w)).map Reading.reading).length := by
      exact_mod_cast hlen
    constructor
    · rw [hyeq, le_div_iff₀ hlenq]
      have hms := length_mul_le_sum
        (fun x hx => minOf_le hmini x (hsub w x hx))
      linarith [hms]
    · rw [hyeq, div_le_iff₀ hlenq]
      have hms := sum_le_length_mul
        (fun x hx => maxOf_le hmaxi x (hsub w x hx))
      linarith [hms]
  -- the windows partition the filtered readings
  obtain ⟨hvne, haeq⟩ := avgOf_eq_some.mp ha
  have hNnat : 0 < (qs.map Reading.reading).length := List.length_pos.mpr hvne
  have hN : (0 : ℚ) < (qs.map Reading.reading).length := by exact_mod_cast hNnat
  have hcount1 : ∀ r ∈ qs, ws.countP (fun w => inWindow w r) = 1 := by
    intro r hr
    obtain ⟨_, h1, h2⟩ := mem_statsQueryset hr
    exact windowsFrom_countP_one hΔ (end_date - start_date).toNat start_date
      le_rfl r.log_time (lt_of_le_of_ne h1 (Ne.symm (hstart r hr))) h2
  have hP1 : (ws.map fun w =>
      ((qs.filter (inWindow w)).map Reading.reading).sum).sum =
      (qs.map Reading.reading).sum := by
    rw [sum_window_sums]
    apply sum_map_congr_mem
    intro r hr
    rw [hcount1 r hr]
    norm_num
  have hP2 : (ws.map fun w => (qs.filter (inWindow w)).length).sum =
      qs.length := by
    rw [sum_window_counts]
    exact sum_map_eq_length fun r hr => hcount1 r hr
  -- per-window sum bounds through the min/max of interval averages
  have hup : ∀ w ∈ ws,
      ((qs.filter (inWindow w)).map Reading.reading).sum ≤
        (((qs.filter (inWindow w)).length : ℕ) : ℚ) * maxa := by
    intro w hw
    by_cases hne : (qs.filter (inWindow w)).map Reading.reading = []
    · have hlen0 : (qs.filter (inWindow w)).length = 0 := by
        have := congrArg List.length hne
        simpa using this
      rw [hne, hlen0]
      norm_num
    · have hlen : 0 < ((qs.filter (inWindow w)).map Reading.reading).length :=
        List.length_pos.mpr hne
      have hlenq : (0 : ℚ) <
          ((qs.filter (inWindow w)).map Reading.reading).length := by
        exact_mod_cast hlen
      have hmem_ia : (((qs.filter (inWindow w)).map Reading.reading).sum /
          ((qs.filter (inWindow w)).map Reading.reading).length : ℚ) ∈
          intervalAverages qs start_date end_date interval := by
        refine List.mem_filterMap.mpr ⟨w, hw, ?_⟩
        unfold avgOf
        rw [if_neg hne]
      have hle := maxOf_le hmaxa _ hmem_ia
      rw [div_le_iff₀ hlenq] at hle
      rw [List.length_map] at hle
      linarith [hle]
  have hlow : ∀ w ∈ ws,
      (((qs.filter (inWindow w)).length : ℕ) : ℚ) * mina ≤
        ((qs.filter (inWindow w)).map Reading.reading).sum := by
    intro w hw
    by_cases hne : (qs.filter (inWindow w)).map Reading.reading = []
    · have hlen0 : (qs.filter (inWindow w)).length = 0 := by
        have := congrArg List.length hne
        simpa using this
      rw [hne, hlen0]
      norm_num
    · have hlen : 0 < ((qs.filter (inWindow w)).map Reading.reading).length :=
        List.length_pos.mpr hne
      have hlenq : (0 : ℚ) <
          ((qs.filter (inWindow w)).map Reading.reading).length := by
        exact_mod_cast hlen
      have hmem_ia : (((qs.filter (inWindow w)).map Reading.reading).sum /
          ((qs.filter (inWindow w)).map Reading.reading).length : ℚ) ∈
          intervalAverages qs start_date end_date interval := by
        refine List.mem_filterMap.mpr ⟨w, hw, ?_⟩
        unfold avgOf
        rw [if_neg hne]
      have hle := minOf_le hmina _ hmem_ia
      rw [le_div_iff₀ hlenq] at hle
      rw [List.length_map] at hle
      linarith [hle]
  -- total: S is squeezed between N*mina and N*maxa
  have hcast : (ws.map fun w =>
      (((qs.filter (inWindow w)).length : ℕ) : ℚ)).sum =
      ((qs.length : ℕ) : ℚ) := by
    rw [sum_map_natCast, hP2]
  have hSup : (qs.map Reading.reading).sum ≤ ((qs.length : ℕ) : ℚ) * maxa := by
    calc (qs.map Reading.reading).sum
        = (ws.map fun w =>
            ((qs.filter (inWindow w)).map Reading.reading).sum).sum := hP1.symm
      _ ≤ (ws.map fun w =>
            (((qs.filter (inWindow w)).length : ℕ) : ℚ) * maxa).sum :=
          List.sum_le_sum hup
      _ = (ws.map fun w =>
            (((qs.filter (inWindow w)).length : ℕ) : ℚ)).sum * maxa :=
          sum_map_mul_right _ _ _
      _ = ((qs.length : ℕ) : ℚ) * maxa := by rw [hcast]
  have hSlow : ((qs.length : ℕ) : ℚ) * mina ≤ (qs.map Reading.reading).sum := by
    calc ((qs.length : ℕ) : ℚ) * mina
        = (ws.map fun w =>
            (((qs.filter (inWindow w)).length : ℕ) : ℚ)).sum * mina := by
          rw [hcast]
      _ = (ws.map fun w =>
            (((qs.filter (inWindow w)).length : ℕ) : ℚ) * mina).sum :=
          (sum_map_mul_right _ _ _).symm
      _ ≤ (ws.map fun w =>
            ((qs.filter (inWindow w)).map Reading.reading).sum).sum :=
          List.sum_le_sum hlow
      _ = (qs.map Reading.reading).sum := hP1
  have hNlen : ((qs.map Reading.reading).length : ℚ) = ((qs.length : ℕ) : ℚ) := by
    rw [List.length_map]
  have hmid1 : mina ≤ a := by
    rw [haeq, le_div_iff₀ hN, hNlen]
    linarith [hSlow]
  have hmid2 : a ≤ maxa := by
    rw [haeq, div_le_iff₀ hN, hNlen]
    linarith [hSup]
  exact ⟨(hbound mina (minOf_mem hmina)).1, hmid1, hmid2,
    (hbound maxa (maxOf_mem hmaxa)).2⟩

/-- Concrete evaluation of the summary on a single reading of 7 at instant 30
in range 0..60 with a 60-minute window: all five statistics are 7. -/
theorem chainExample_summary_eval :
    (retrieve_summary_for_gas [⟨⟨1, 1, "CO"⟩, 30, 7, some ⟨1, "A"⟩, none⟩]
        1 "CO" 0 60 60).average = some 7 ∧
    (retrieve_summary_for_gas [⟨⟨1, 1, "CO"⟩, 30, 7, some ⟨1, "A"⟩, none⟩]
        1 "CO" 0 60 60).min_avg = some 7 ∧
    (retrieve_summary_for_gas [⟨⟨1, 1, "CO"⟩, 30, 7, some ⟨1, "A"⟩, none⟩]
        1 "CO" 0 60 60).max_avg = some 7 ∧
    (retrieve_summary_for_gas [⟨⟨1, 1, "CO"⟩, 30, 7, some ⟨1, "A"⟩, none⟩]
        1 "CO" 0 60 60).min_individual = some 7 ∧
    (retrieve_summary_for_gas [⟨⟨1, 1, "CO"⟩, 30, 7, some ⟨1, "A"⟩, none⟩]
        1 "CO" 0 60 60).max_individual = some 7 := by
  have hwin : windowsFrom 60 60 0 = [((0 : ℤ), (60 : ℤ))] := by decide
  unfold retrieve_summary_for_gas intervalAverages
  rw [hwin]
  refine ⟨?_, ?_, ?_, ?_, ?_⟩ <;>
    norm_num [statsQueryset, baseQueryset, avgOf, minOf, maxOf, inWindow,
      List.filter, List.filterMap]

/-- Witness for `summary_five_number_chain` at the concrete input of
`chainExample_summary_eval`, where every statistic equals 7. -/
theorem summary_five_number_chain_witness :
    (7 : ℚ) ≤ 7 ∧ (7 : ℚ) ≤ 7 ∧ (7 : ℚ) ≤ 7 ∧ (7 : ℚ) ≤ 7 :=
  summary_five_number_chain
    [⟨⟨1, 1, "CO"⟩, 30, 7, some ⟨1, "A"⟩, none⟩] 1 "CO" 0 60 60
    (by norm_num) (by decide) 7 7 7 7 7
    chainExample_summary_eval.1
    chainExample_summary_eval.2.1
    chainExample_summary_eval.2.2.1
    chainExample_summary_eval.2.2.2.1
    chainExample_summary_eval.2.2.2.2

/-- The sub-queryset of readings with null `validation` — the filter every
aggregation applies before anything else sees the data. -/
def validOnly (readings : List Reading) : List Reading :=
  readings.filter fun r => decide (r.validation = none)

/-- The queryset of `drawSummaryTable` (reports.py lines 385-401): valid
readings only, then the date range, then the optional location and gas
filters (a falsy/empty selection applies no filter). -/
def reportQueryset (readings : List Reading) (selected_locations : List ℕ)
    (selected_gases : List String) (start_date end_date : ℤ) : List Reading :=
  let q1 := readings.filter fun r => decide (r.validation = none)
  let q2 := q1.filter fun r =>
    decide (start_date ≤ r.log_time) && decide (r.log_time ≤ end_date)
  let q3 := if selected_locations = [] then q2
    else q2.filter fun r =>
      decide (∃ i ∈ selected_locations, r.location.map LocRef.id = some i)
  if selected_gases = [] then q3
  else q3.filter fun r => decide (r.sensor.gas_code ∈ selected_gases)

/-- The report's grouping key `(location__label, sensor__gas_code)`
(reports.py lines 419, 453, 468); a reading without a location groups under a
null label. -/
def readingKey (r : Reading) : Option String × String :=
  (r.location.map LocRef.label, r.sensor.gas_code)

/-- The group keys of the table: the distinct keys occurring in the queryset
(the keys of `time_period_stats`); the embedding orders them by first
occurrence where the source orders by label and gas — the set of rows and
each row's content are unaffected. -/
def tableKeys (queryset : List Reading) : List (Option String × String) :=
  (queryset.map readingKey).dedup

/-- One row of the report's summary table (reports.py lines 494-503). -/
structure TableRow where
  loc_label : Option String
  gas : String
  avg : Option ℚ
  n : ℕ
  max_interval_avg : Option ℚ
  min_interval_avg : Option ℚ
  max_individual : Option ℚ
  min_individual : Option ℚ
deriving DecidableEq

/-- The data rows of `drawSummaryTable` (reports.py lines 405-504), with the
interval parameter already converted to an integer: per distinct key, the
whole-range average and count, min/max over the per-window averages of that
key's readings (a window with no readings of the key contributes nothing,
lines 457-461), and the individual extremes.  When `interval <= 0` the
source reads variables that were never assigned (the calculations are inside
`if interval_int > 0:` but the table loop is not) and crashes: `none`. -/
def drawSummaryTableRows (readings : List Reading)
    (selected_locations : List ℕ) (selected_gases : List String)
    (start_date end_date interval : ℤ) : Option (List TableRow) :=
  let queryset := reportQueryset readings selected_locations selected_gases
    start_date end_date
  if 0 < interval then
    some ((tableKeys queryset).map fun k =>
      let key_readings := queryset.filter fun r => decide (readingKey r = k)
      let vals := key_readings.map Reading.reading
      { loc_label := k.1
        gas := k.2
        avg := avgOf vals
        n := key_readings.length
        max_interval_avg := maxOf
          (intervalAverages key_readings start_date end_date interval)
        min_interval_avg := minOf
          (intervalAverages key_readings start_date end_date interval)
        max_individual := maxOf vals
        min_individual := minOf vals })
  else none

/-- A filter whose predicate only keeps readings with null `validation`
factors through `validOnly`. -/
theorem filter_valid_factor (l : List Reading) (p : Reading → Bool)
    (hp : ∀ r, p r = true → r.validation = none) :
    l.filter p = (validOnly l).filter p := by
  unfold validOnly
  rw [List.filter_filter]
  have hfun : (fun a => p a && decide (a.validation = none)) = p := by
    funext r
    by_cases hpr : p r = true
    · simp [hpr, hp r hpr]
    · simp [hpr]
  rw [hfun]

theorem baseQueryset_eq_of_validOnly_eq {rs1 rs2 : List Reading}
    (location_id : ℕ) (gas_code : String) (h : validOnly rs1 = validOnly rs2) :
    baseQueryset rs1 location_id gas_code = baseQueryset rs2 location_id gas_code := by
  unfold baseQueryset
  rw [filter_valid_factor rs1 _ ?hp, filter_valid_factor rs2 _ ?hp, h]
  case hp =>
    intro r hr
    simp only [Bool.and_eq_true, decide_eq_true_eq] at hr
    exact hr.2

/-- C7: the statistics series, the range summary and the report table are
functions of the `validation`-null readings alone — two reading sets that
agree after dropping readings with non-null `validation` (i.e. differ only in
invalidated readings) produce identical outputs from all three computations,
whatever the range, grouping or window size. -/
theorem invalid_readings_never_aggregated
    (rs1 rs2 : List Reading) (location_id : ℕ) (gas_code : String)
    (selected_locations : List ℕ) (selected_gases : List String)
    (start_date end_date interval : ℤ)
    (h : validOnly rs1 = validOnly rs2) :
    retrieve_for_gas rs1 location_id gas_code start_date end_date interval =
      retrieve_for_gas rs2 location_id gas_code start_date end_date interval ∧
    retrieve_summary_for_gas rs1 location_id gas_code start_date end_date
        interval =
      retrieve_summary_for_gas rs2 location_id gas_code start_date end_date
        interval ∧
    drawSummaryTableRows rs1 selected_locations selected_gases start_date
        end_date interval =
      drawSummaryTableRows rs2 selected_locations selected_gases start_date
        end_date interval := by
  have hbase := baseQueryset_eq_of_validOnly_eq location_id gas_code h
  have hreport : reportQueryset rs1 selected_locations selected_gases
      start_date end_date =
      reportQueryset rs2 selected_locations selected_gases start_date
        end_date := by
    unfold reportQueryset
    rw [show rs1.filter (fun r => decide (r.validation = none)) = validOnly rs1
        from rfl,
      show rs2.filter (fun r => decide (r.validation = none)) = validOnly rs2
        from rfl, h]
  refine ⟨?_, ?_, ?_⟩
  · unfold retrieve_for_gas statsQueryset
    rw [hbase]
  · unfold retrieve_summary_for_gas statsQueryset
    rw [hbase]
  · unfold drawSummaryTableRows
    rw [hreport]

/-- Witness for `invalid_readings_never_aggregated`: a set containing one
invalidated reading against the empty set — the filtered views agree, so all
three outputs agree. -/
theorem invalid_readings_never_aggregated_witness :
    retrieve_for_gas [⟨⟨1, 1, "CO"⟩, 30, 5, some ⟨1, "A"⟩, some 3⟩]
        1 "CO" 0 60 60 =
      retrieve_for_gas [] 1 "CO" 0 60 60 ∧
    retrieve_summary_for_gas [⟨⟨1, 1, "CO"⟩, 30, 5, some ⟨1, "A"⟩, some 3⟩]
        1 "CO" 0 60 60 =
      retrieve_summary_for_gas [] 1 "CO" 0 60 60 ∧
    drawSummaryTableRows [⟨⟨1, 1, "CO"⟩, 30, 5, some ⟨1, "A"⟩, some 3⟩]
        [] [] 0 60 60 =
      drawSummaryTableRows [] [] [] 0 60 60 :=
  invalid_readings_never_aggregated
    [⟨⟨1, 1, "CO"⟩, 30, 5, some ⟨1, "A"⟩, some 3⟩] [] 1 "CO" [] [] 0 60 60
    (by decide)

end AirMonitoring
